import Mathlib

/-!
Verification of the cocoa repository (dsi-clinic/cocoa): a shallow embedding of
the structural-compliance engine in src/cocoa/linting.py, src/cocoa/notebooks.py,
src/cocoa/evaluate_repo.py and the file-selection logic of walk_and_process,
together with proofs settling the claims about it.

Python strings are embedded as lists of characters (`PyStr`).  Python syntax
trees (the ast module output) are embedded as the inductive types `Expr` and
`Stmt` below, covering the node kinds the analyzed functions discriminate on;
fields that no modeled operation reads (assignment targets, loop iterables,
decorators) are omitted.  Fallible Python code is embedded with `Option`
(a function that swallows an exception and falls off the end returns the
Python value None, embedded as `Option.none`) or `Except PyErr` (an uncaught
exception propagating to the caller).
-/

abbrev PyStr := List Char

/-- Conversion from a Lean string literal to the character-list embedding. -/
def pstr (s : String) : PyStr := s.toList

/-- Python str.startswith: the first argument is a prefix of the second. -/
def pyStartsWith : PyStr → PyStr → Bool
  | [], _ => true
  | _ :: _, [] => false
  | a :: as, b :: bs => a = b && pyStartsWith as bs

/-- Python str.strip(): remove leading and trailing whitespace. -/
def pyStrip (s : PyStr) : PyStr :=
  ((s.dropWhile Char.isWhitespace).reverse.dropWhile Char.isWhitespace).reverse

/-- Python str.find(c) over a list tail: index of the first occurrence, -1 if absent. -/
def pyFindAux (c : Char) : PyStr → Int
  | [] => -1
  | a :: rest =>
    if a = c then 0
    else
      let r := pyFindAux c rest
      if r = -1 then -1 else r + 1

/-- Python s.find(c): index of the first occurrence of c in s, or -1. -/
def pyFind (s : PyStr) (c : Char) : Int := pyFindAux c s

/-- Python slicing s[i:]: for a negative start the offset counts from the end,
clamped at 0, mirroring start = max(0, len(s) + i). -/
def pySliceFrom (s : PyStr) (i : Int) : PyStr :=
  if i < 0 then s.drop ((s.length : Int) + i).toNat else s.drop i.toNat

/-! ## The embedded Python syntax tree (ast module node kinds) -/

/-- Python literal constant values (ast.Constant.value). -/
inductive Const
  | str (s : PyStr)
  | int (n : Int)
  | bool (b : Bool)
  | none
deriving DecidableEq

/-- Comparison operators (ast.cmpop). -/
inductive CmpOp
  | eq | notEq | lt | ltE | gt | gtE
deriving DecidableEq

/-- Expression nodes.  ast.Compare carries a nonempty list of operators and
comparators; the parser invariant is embedded by storing the first pair
explicitly.  Expression kinds the analyzed code never discriminates on are
collapsed into `other`. -/
inductive Expr
  | constant (v : Const)
  | name (id : PyStr)
  | compare (left : Expr) (op0 : CmpOp) (comp0 : Expr) (rest : List (CmpOp × Expr))
  | call (func : Expr) (args : List Expr)
  | other

/-- Statement nodes, one constructor per ast class the repository touches.
`importStmt` carries the alias names of ast.Import; `importFrom` the module
(None for a relative `from . import`) and names.  `exprStmt` is ast.Expr,
`assign` ast.Assign (targets unread), `annAssign` ast.AnnAssign (value may be
absent), `ret` ast.Return. -/
inductive Stmt
  | importStmt (names : List PyStr)
  | importFrom (module : Option PyStr) (names : List PyStr)
  | functionDef (name : PyStr) (body : List Stmt)
  | asyncFunctionDef (name : PyStr) (body : List Stmt)
  | classDef (name : PyStr) (body : List Stmt)
  | ifStmt (test : Expr) (body : List Stmt) (orelse : List Stmt)
  | exprStmt (value : Expr)
  | assign (value : Expr)
  | annAssign (value : Option Expr)
  | ret (value : Option Expr)
  | forStmt (body : List Stmt) (orelse : List Stmt)
  | whileStmt (body : List Stmt) (orelse : List Stmt)
  | withStmt (body : List Stmt)
  | pass

/-! ## linting.is_code_in_functions_or_main (lines 167-215) -/

/-- Python attribute access node.value: outer Option is whether the ast class
has a value field at all (absence raises AttributeError), inner Option is
whether the field holds an expression or the Python value None. -/
def valueAttr : Stmt → Option (Option Expr)
  | .exprStmt v => some (some v)
  | .assign v => some (some v)
  | .annAssign v => some v
  | .ret v => some v
  | _ => Option.none

/-- isinstance(node, (ast.FunctionDef, ast.AsyncFunctionDef, ast.ClassDef)). -/
def isDefNode : Stmt → Bool
  | .functionDef _ _ => true
  | .asyncFunctionDef _ _ => true
  | .classDef _ _ => true
  | _ => false

/-- isinstance(node, (ast.Import, ast.ImportFrom)). -/
def isImportNode : Stmt → Bool
  | .importStmt _ => true
  | .importFrom _ _ => true
  | _ => false

/-- The main-guard test of is_code_in_functions_or_main: the If test is a
Compare whose first operator is Eq, whose left side is the Name with id
equal to the string __name__, and whose first comparator is a Constant whose
value compares equal to the string with content __main__. -/
def isMainGuardTest : Expr → Bool
  | .compare (.name id) op0 (.constant c) _ =>
    (match op0 with | .eq => true | _ => false) &&
      id = pstr "__name__" &&
      (match c with | .str s => s = pstr "__main__" | _ => false)
  | _ => false

/-- isinstance(node, ast.If) together with the main-guard test shape. -/
def isMainGuardIf : Stmt → Bool
  | .ifStmt t _ _ => isMainGuardTest t
  | _ => false

/-- isinstance(node.value, ast.Constant), given that the value attribute exists. -/
def valueIsConst : Option Expr → Bool
  | some (.constant _) => true
  | _ => false

/-- The statement loop of is_code_in_functions_or_main.  Imports are skipped;
definition nodes and main-guard conditionals are allowed; otherwise node.value
is read: an AttributeError (no such attribute) is caught by the generic except
handler and the function falls off the end returning None; a non-Constant
value breaks with False. -/
def encapsulationLoop : List Stmt → Option Bool
  | [] => some true
  | node :: rest =>
    if isImportNode node then encapsulationLoop rest
    else if isDefNode node || isMainGuardIf node then encapsulationLoop rest
    else
      match valueAttr node with
      | Option.none => Option.none
      | some v => if valueIsConst v then encapsulationLoop rest else some false

/-- linting.is_code_in_functions_or_main on a parsed module body: some b for a
Python bool return, Option.none for the swallowed-exception None return. -/
def is_code_in_functions_or_main (body : List Stmt) : Option Bool :=
  encapsulationLoop body

/-- The whitelist of allowed top-level statements exactly as the specification
words it: an import, a function or async-function or class definition, a
main-guard conditional, or an expression statement whose value is a literal
constant.  Stated from the spec for comparison with the code. -/
def specAllowedTopLevel : Stmt → Bool
  | .importStmt _ => true
  | .importFrom _ _ => true
  | .functionDef _ _ => true
  | .asyncFunctionDef _ _ => true
  | .classDef _ _ => true
  | .ifStmt t _ _ => isMainGuardTest t
  | .exprStmt (.constant _) => true
  | _ => false

/-- The shape the code actually allows: an import, a definition, a main-guard
conditional, or any statement whose value attribute exists and holds a
Constant (this also admits assignments of literal constants). -/
def codeAllowed (s : Stmt) : Bool :=
  isImportNode s || isDefNode s || isMainGuardIf s ||
    (match valueAttr s with
     | some v => valueIsConst v
     | Option.none => false)

/-! ## linting.functions_without_docstrings (lines 218-247) -/

/-- The docstring test of functions_without_docstrings: the body is nonempty,
its first statement is an ast.Expr, and that value is a constant literal
(isinstance against (ast.Str, ast.Constant)). -/
def hasDocstring : List Stmt → Bool
  | .exprStmt (.constant _) :: _ => true
  | _ => false

/-- The name reported for one visited node: only an ast.FunctionDef failing
the docstring test contributes (the isinstance check does not match
ast.AsyncFunctionDef, which is a distinct class). -/
def undocNames : Stmt → List PyStr
  | .functionDef n body => if hasDocstring body then [] else [n]
  | _ => []

/-- The statement children of a node in ast field order, as ast.walk pushes
them; expression children carry no statements and are irrelevant to the
collected names. -/
def stmtChildren : Stmt → List Stmt
  | .functionDef _ b => b
  | .asyncFunctionDef _ b => b
  | .classDef _ b => b
  | .ifStmt _ b o => b ++ o
  | .forStmt b o => b ++ o
  | .whileStmt b o => b ++ o
  | .withStmt b => b
  | _ => []

theorem sum_map_sizeOf_lt (l : List Stmt) : ((l.map sizeOf).sum) < sizeOf l := by
  induction l with
  | nil => simp
  | cons a t ih =>
    simp only [List.map_cons, List.sum_cons, List.cons.sizeOf_spec]
    omega

theorem stmtChildren_sizeOf_lt (s : Stmt) : ((stmtChildren s).map sizeOf).sum < sizeOf s := by
  cases s with
  | importStmt names => simp_arith [stmtChildren]
  | importFrom m names => simp_arith [stmtChildren]
  | functionDef n b =>
    have := sum_map_sizeOf_lt b
    simp only [stmtChildren, Stmt.functionDef.sizeOf_spec]
    omega
  | asyncFunctionDef n b =>
    have := sum_map_sizeOf_lt b
    simp only [stmtChildren, Stmt.asyncFunctionDef.sizeOf_spec]
    omega
  | classDef n b =>
    have := sum_map_sizeOf_lt b
    simp only [stmtChildren, Stmt.classDef.sizeOf_spec]
    omega
  | ifStmt t b o =>
    have hb := sum_map_sizeOf_lt b
    have ho := sum_map_sizeOf_lt o
    simp only [stmtChildren, List.map_append, List.sum_append, Stmt.ifStmt.sizeOf_spec]
    omega
  | exprStmt v => simp_arith [stmtChildren]
  | assign v => simp_arith [stmtChildren]
  | annAssign v => simp_arith [stmtChildren]
  | ret v => simp_arith [stmtChildren]
  | forStmt b o =>
    have hb := sum_map_sizeOf_lt b
    have ho := sum_map_sizeOf_lt o
    simp only [stmtChildren, List.map_append, List.sum_append, Stmt.forStmt.sizeOf_spec]
    omega
  | whileStmt b o =>
    have hb := sum_map_sizeOf_lt b
    have ho := sum_map_sizeOf_lt o
    simp only [stmtChildren, List.map_append, List.sum_append, Stmt.whileStmt.sizeOf_spec]
    omega
  | withStmt b =>
    have := sum_map_sizeOf_lt b
    simp only [stmtChildren, Stmt.withStmt.sizeOf_spec]
    omega
  | pass => simp_arith [stmtChildren]

theorem walkMeasure_lt (s : Stmt) (q : List Stmt) :
    (((q ++ stmtChildren s).map sizeOf).sum) < (((s :: q).map sizeOf).sum) := by
  simp only [List.map_append, List.sum_append, List.map_cons, List.sum_cons]
  have := stmtChildren_sizeOf_lt s
  omega

/-- The breadth-first queue of ast.walk, collecting the reported names in
visit order: pop a node, report it if it is an undocumented FunctionDef, and
push its children at the back of the queue. -/
def walkUndoc : List Stmt → List PyStr
  | [] => []
  | s :: q => undocNames s ++ walkUndoc (q ++ stmtChildren s)
termination_by q => (q.map sizeOf).sum
decreasing_by
  exact walkMeasure_lt _ _

/-- linting.functions_without_docstrings on a parsed module body. -/
def functions_without_docstrings (body : List Stmt) : List PyStr :=
  walkUndoc body

mutual
/-- Structural count of the ast.FunctionDef nodes named nm in a subtree that
fail the docstring test (async definitions recurse but never count). -/
def countUndoc (nm : PyStr) : Stmt → Nat
  | .functionDef n body =>
    (if hasDocstring body then 0 else if n = nm then 1 else 0) + countUndocL nm body
  | .asyncFunctionDef _ b => countUndocL nm b
  | .classDef _ b => countUndocL nm b
  | .ifStmt _ b o => countUndocL nm b + countUndocL nm o
  | .forStmt b o => countUndocL nm b + countUndocL nm o
  | .whileStmt b o => countUndocL nm b + countUndocL nm o
  | .withStmt b => countUndocL nm b
  | _ => 0

/-- countUndoc summed over a list of statements. -/
def countUndocL (nm : PyStr) : List Stmt → Nat
  | [] => 0
  | s :: t => countUndoc nm s + countUndocL nm t
end

/-! ## linting.SubprocessVisitor and code_contains_subprocess (lines 250-288) -/

mutual
/-- The SubprocessVisitor on one node: a plain import with an alias named
subprocess or a from-import whose module is subprocess sets found; the
generic visit recurses into every child. -/
def stmtContainsSubprocess : Stmt → Bool
  | .importStmt names => names.any (fun n => n = pstr "subprocess")
  | .importFrom m _ =>
    (match m with
     | some s => s = pstr "subprocess"
     | Option.none => false)
  | .functionDef _ b => listContainsSubprocess b
  | .asyncFunctionDef _ b => listContainsSubprocess b
  | .classDef _ b => listContainsSubprocess b
  | .ifStmt _ b o => listContainsSubprocess b || listContainsSubprocess o
  | .forStmt b o => listContainsSubprocess b || listContainsSubprocess o
  | .whileStmt b o => listContainsSubprocess b || listContainsSubprocess o
  | .withStmt b => listContainsSubprocess b
  | _ => false

/-- stmtContainsSubprocess over a list of statements. -/
def listContainsSubprocess : List Stmt → Bool
  | [] => false
  | s :: t => stmtContainsSubprocess s || listContainsSubprocess t
end

/-- linting.code_contains_subprocess on a parsed module body. -/
def code_contains_subprocess (body : List Stmt) : Bool :=
  listContainsSubprocess body

/-! ## Error model and the file-level analyzer wrappers (claim C5) -/

/-- The Python exception kinds the embedded code can raise. -/
inductive PyErr
  | syntaxError
  | keyError
  | typeError
  | attributeError
deriving DecidableEq

/-- The outcome of reading and parsing one script file, the input each
file-level analyzer starts from: `parsed body` when open and ast.parse both
succeed, `unparsable` when ast.parse raises SyntaxError, `unreadable` when
open or read raises IOError. -/
inductive ScriptSource
  | parsed (body : List Stmt)
  | unparsable
  | unreadable

/-- File-level is_code_in_functions_or_main: except SyntaxError and except
Exception both print and fall off the end, so a parse failure or an IOError
returns None rather than propagating. -/
def is_code_in_functions_or_main_src : ScriptSource → Option Bool
  | .parsed body => is_code_in_functions_or_main body
  | .unparsable => Option.none
  | .unreadable => Option.none

/-- File-level functions_without_docstrings: only IOError is caught (printing
and returning the empty list); a SyntaxError from ast.parse propagates to the
caller uncaught. -/
def functions_without_docstrings_src : ScriptSource → Except PyErr (List PyStr)
  | .parsed body => .ok (functions_without_docstrings body)
  | .unparsable => .error .syntaxError
  | .unreadable => .ok []

/-- File-level code_contains_subprocess: only IOError is caught (printing and
returning False); a SyntaxError from ast.parse propagates uncaught. -/
def code_contains_subprocess_src : ScriptSource → Except PyErr Bool
  | .parsed body => .ok (code_contains_subprocess body)
  | .unparsable => .error .syntaxError
  | .unreadable => .ok false

/-! ## notebooks.process_notebook (lines 15-41) over decoded JSON -/

/-- A decoded JSON document as json.load returns it; obj embeds the decoded
dict, whose keys are unique. -/
inductive JValue
  | null
  | bool (b : Bool)
  | num (n : Int)
  | str (s : PyStr)
  | arr (elems : List JValue)
  | obj (fields : List (PyStr × JValue))

/-- Dict subscript lookup. -/
def jLookup : List (PyStr × JValue) → PyStr → Option JValue
  | [], _ => Option.none
  | (k, v) :: rest, key => if k = key then some v else jLookup rest key

/-- Python == between a decoded value and a string: equal only when the value
is a string with the same content; on any other type == is False, no error. -/
def pyEqStr (v : JValue) (t : PyStr) : Bool :=
  match v with
  | .str s => s = t
  | _ => false

/-- Python truthiness of line.strip(): the stripped line is nonempty. -/
def pyNonBlank (s : PyStr) : Bool := !(pyStrip s).isEmpty

/-- notebooks.count_functions on the extracted source lines of a cell: the
number of lines whose stripped text starts with def followed by a space. -/
def count_functions (code : List PyStr) : Nat :=
  (code.filter (fun line => pyStartsWith (pstr "def ") (pyStrip line))).length

/-- The two comprehensions over cell["source"]: the non-blank line count and
the count_functions count.  Iterating a JSON array calls strip on each
element, raising AttributeError at the first non-string; iterating a string
yields its one-character substrings; iterating a dict yields its keys;
iterating any other value raises TypeError. -/
def sourceCounts : JValue → Except PyErr (Nat × Nat)
  | .arr lines => do
    let strs ← lines.mapM (fun l =>
      match l with
      | .str s => Except.ok s
      | _ => Except.error PyErr.attributeError)
    Except.ok ((strs.filter pyNonBlank).length, count_functions strs)
  | .str s =>
    let chars := s.map (fun c => ([c] : PyStr))
    Except.ok ((chars.filter pyNonBlank).length, count_functions chars)
  | .obj fs =>
    let keys := fs.map (fun kv => kv.1)
    Except.ok ((keys.filter pyNonBlank).length, count_functions keys)
  | _ => Except.error PyErr.typeError

/-- Processing one cell of the loop body: subscripting a non-dict cell raises
TypeError, a missing cell_type or source key raises KeyError; a cell whose
cell_type does not compare equal to the string code contributes nothing
(`Option.none`); a code cell yields its two source counts. -/
def processCell (cell : JValue) : Except PyErr (Option (Nat × Nat)) :=
  match cell with
  | .obj fs =>
    match jLookup fs (pstr "cell_type") with
    | Option.none => .error .keyError
    | some v =>
      if pyEqStr v (pstr "code") then
        match jLookup fs (pstr "source") with
        | Option.none => .error .keyError
        | some src => (sourceCounts src).map some
      else .ok Option.none
  | _ => .error .typeError

/-- The cell loop threading num_lines, num_functions and max_lines_in_cell in
the update order of the source. -/
def processCells : List JValue → Nat → Nat → Nat → Except PyErr (Nat × Nat × Nat)
  | [], lines, fns, mx => .ok (lines, fns, mx)
  | cell :: rest, lines, fns, mx =>
    match processCell cell with
    | .error e => .error e
    | .ok Option.none => processCells rest lines fns mx
    | .ok (some (lc, fc)) => processCells rest (lines + lc) (fns + fc) (max mx lc)

/-- notebooks.process_notebook on the decoded document: returns the tuple
(num_cells, num_lines, num_functions, max_lines_in_cell), or the uncaught
exception.  notebook["cells"] on a non-dict raises TypeError and a missing
cells key raises KeyError; a non-list cells value raises TypeError from len()
or from subscripting the iterated element, except that an empty string or
empty dict passes len() and skips the loop. -/
def process_notebook (nb : JValue) : Except PyErr (Nat × Nat × Nat × Nat) :=
  match nb with
  | .obj fields =>
    match jLookup fields (pstr "cells") with
    | Option.none => .error .keyError
    | some (.arr cells) =>
      match processCells cells 0 0 0 with
      | .error e => .error e
      | .ok (lines, fns, mx) => .ok (cells.length, lines, fns, mx)
    | some (.str s) => if s.isEmpty then .ok (0, 0, 0, 0) else .error .typeError
    | some (.obj fs) => if fs.isEmpty then .ok (0, 0, 0, 0) else .error .typeError
    | some _ => .error .typeError
  | _ => .error .typeError

/-- Whether a cell is a code cell: a dict whose cell_type compares equal to
the string code. -/
def isCodeCell : JValue → Bool
  | .obj fs =>
    (match jLookup fs (pstr "cell_type") with
     | some v => pyEqStr v (pstr "code")
     | Option.none => false)
  | _ => false

/-- The control flow of evaluate_repo.walk_and_process and analyze_notebook
over a list of notebook documents: each file is decomposed in turn with no
exception handler around process_notebook, so an error from one file
propagates and aborts the whole run. -/
def runNotebooks : List JValue → Except PyErr (List (Nat × Nat × Nat × Nat))
  | [] => .ok []
  | nb :: rest => do
    let r ← process_notebook nb
    let rs ← runNotebooks rest
    .ok (r :: rs)

/-! ## evaluate_repo.find_first_match_index and process_ruff_results (lines 61-75) -/

/-- The compiled pattern Found \d+ errors applied with regex.match, which
anchors at the start of the line: the line must start with the literal
Found and a space, then a nonempty digit run, then the literal space and
errors (anything may follow).  Backtracking cannot extend a match here
because the character after the digit run must be a space, which is not a
digit, so the greedy run is the only candidate; digits are embedded as the
ASCII digits. -/
def matchesSummary (s : PyStr) : Bool :=
  pyStartsWith (pstr "Found ") s &&
    (let rest := s.drop 6
     let ds := rest.takeWhile Char.isDigit
     !ds.isEmpty && pyStartsWith (pstr " errors") (rest.drop ds.length))

/-- The enumerate loop of find_first_match_index over a list tail: 0 when the
head matches, otherwise one more than the index in the tail, -1 if no line
matches. -/
def findFirstMatchAux (p : PyStr → Bool) : List PyStr → Int
  | [] => -1
  | x :: rest =>
    if p x then 0
    else
      let r := findFirstMatchAux p rest
      if r = -1 then -1 else r + 1

/-- evaluate_repo.find_first_match_index, with the compiled regex passed as a
matcher on lines. -/
def find_first_match_index (lst : List PyStr) (p : PyStr → Bool) : Int :=
  findFirstMatchAux p lst

/-- evaluate_repo.process_ruff_results: split the raw output on newlines, find
the first line matching the summary pattern, and return the empty list if no
line matches, otherwise the lines strictly before the match. -/
def process_ruff_results (results : PyStr) : List PyStr :=
  let lines := results.splitOn '\n'
  let fmi := find_first_match_index lines matchesSummary
  if fmi = -1 then [] else lines.take fmi.toNat

/-! ## linting.convert_temp_names_to_originals (lines 19-38) -/

/-- linting.convert_temp_names_to_originals: for each line, concatenate the
original path with the slice of the line starting at the index of its first
colon; a failed find yields the index -1, so the slice then starts at the
last character. -/
def convert_temp_names_to_originals (errors_and_warnings : List PyStr)
    (original_path : PyStr) : List PyStr :=
  errors_and_warnings.map
    (fun path_and_message =>
      original_path ++ pySliceFrom path_and_message (pyFind path_and_message ':'))

/-! ## evaluate_repo.walk_and_process file selection (lines 34-58, claim C9) -/

/-- The ignored-directory markers of walk_and_process. -/
def paths_to_flag : List PyStr :=
  [pstr "__pycache__", pstr "DS_Store", pstr "ipynb_checkpoints"]

/-- Python substring containment needle in hay. -/
def pySubstr (needle : PyStr) : PyStr → Bool
  | [] => needle.isEmpty
  | c :: rest => pyStartsWith needle (c :: rest) || pySubstr needle rest

/-- A path containing any ignored-directory marker as a substring. -/
def isFlaggedPath (p : PyStr) : Bool :=
  paths_to_flag.any (fun x => pySubstr x p)

/-- The file-selection and dispatch logic of evaluate_repo.walk_and_process,
with the two external collaborators passed as oracles: walkFiles is the full
os.walk enumeration, dateFiles is the files_after_date result when a start
date was supplied, and fileExists is os.path.exists.  The marker filter is
applied only when no start date is supplied; the returned list is the files
dispatched to analyze_notebook or analyze_python_file, in order. -/
def walk_and_process (walkFiles : List PyStr) (dateFiles : Option (List PyStr))
    (fileExists : PyStr → Bool) : List PyStr :=
  let files_to_process :=
    match dateFiles with
    | some fs => fs
    | Option.none => walkFiles.filter (fun p => !isFlaggedPath p)
  files_to_process.filter
    (fun p => fileExists p &&
      (pyStartsWith (pstr ".ipynb").reverse p.reverse ||
       pyStartsWith (pstr ".py").reverse p.reverse))

/-! ## Claim C1: the encapsulation rule -/

/-- C1 (counterexample).  The claim says checkEncapsulation returns true only
when every top-level statement is an import, a definition, a main-guard or a
literal-constant expression statement, and in particular that a script with a
top-level assignment yields false.  An assignment of a literal constant has a
value attribute holding a Constant, so the isinstance check on node.value
admits it: the script x = 5 returns True although the spec whitelist rejects
the statement. -/
theorem is_code_in_functions_or_main_assign_constant :
    is_code_in_functions_or_main [Stmt.assign (Expr.constant (Const.int 5))] = some true ∧
    specAllowedTopLevel (Stmt.assign (Expr.constant (Const.int 5))) = false := by
  exact ⟨rfl, rfl⟩

/-- C1 (amended).  is_code_in_functions_or_main returns True exactly when
every top-level statement is an import, a function or async-function or class
definition, a main-guard conditional, or any statement whose value attribute
holds a literal Constant (which admits assignments of literal constants, not
only expression statements); any other statement makes the result False when
its value attribute exists and None (a swallowed AttributeError) otherwise,
never True. -/
theorem is_code_in_functions_or_main_true_iff (body : List Stmt) :
    is_code_in_functions_or_main body = some true ↔ ∀ s ∈ body, codeAllowed s = true := by
  induction body with
  | nil => simp [is_code_in_functions_or_main, encapsulationLoop]
  | cons node rest ih =>
    simp only [is_code_in_functions_or_main] at ih ⊢
    rw [encapsulationLoop]
    by_cases h1 : isImportNode node
    · simp [h1, codeAllowed, ih]
    · by_cases h2 : (isDefNode node || isMainGuardIf node) = true
      · have hca : codeAllowed node = true := by
          simp only [codeAllowed]
          rcases Bool.or_eq_true_iff.mp h2 with h | h <;> simp [h]
        simp [h1, h2, hca, ih]
      · cases hv : valueAttr node with
        | none =>
          have hca : codeAllowed node = false := by
            simp only [codeAllowed, hv]
            simp only [Bool.or_eq_true] at h2
            push_neg at h2
            simp [h1, h2.1, h2.2]
          simp only [h1, Bool.false_eq_true, if_false, h2, hv]
          constructor
          · intro h; exact absurd h (by simp)
          · intro h
            have := h node (List.mem_cons_self node rest)
            rw [hca] at this
            exact absurd this (by simp)
        | some v =>
          by_cases h3 : valueIsConst v = true
          · have hca : codeAllowed node = true := by
              simp only [codeAllowed, hv]
              simp [h3]
            simp [h1, h2, hv, h3, hca, ih]
          · have hca : codeAllowed node = false := by
              simp only [codeAllowed, hv]
              simp only [Bool.or_eq_true] at h2
              push_neg at h2
              simp [h1, h2.1, h2.2, h3]
            simp only [h1, Bool.false_eq_true, if_false, h2, hv,
              h3, Bool.false_eq_true, if_false]
            constructor
            · intro h; exact absurd h (by simp)
            · intro h
              have := h node (List.mem_cons_self node rest)
              rw [hca] at this
              exact absurd this (by simp)

example : is_code_in_functions_or_main
    [Stmt.importStmt [pstr "os"],
     Stmt.exprStmt (Expr.call (Expr.name (pstr "print")) [Expr.constant (Const.str (pstr "hi"))])]
    = some false := rfl

example : is_code_in_functions_or_main
    [Stmt.ifStmt (Expr.compare (Expr.name (pstr "__name__")) CmpOp.eq
      (Expr.constant (Const.str (pstr "__main__"))) []) [Stmt.pass] []]
    = some true := rfl

example : is_code_in_functions_or_main [Stmt.forStmt [Stmt.pass] []] = Option.none := rfl

/-! ## Claim C2: the docstring rule -/

theorem walkUndoc_nil : walkUndoc [] = [] := by
  rw [walkUndoc]

theorem walkUndoc_cons (s : Stmt) (q : List Stmt) :
    walkUndoc (s :: q) = undocNames s ++ walkUndoc (q ++ stmtChildren s) := by
  rw [walkUndoc]

theorem countUndocL_eq_sum (nm : PyStr) (l : List Stmt) :
    countUndocL nm l = (l.map (countUndoc nm)).sum := by
  induction l with
  | nil => simp [countUndocL]
  | cons s t ih => simp [countUndocL, ih]

theorem countUndoc_eq (nm : PyStr) (s : Stmt) :
    countUndoc nm s = (undocNames s).count nm + ((stmtChildren s).map (countUndoc nm)).sum := by
  cases s with
  | importStmt names => simp [countUndoc, undocNames, stmtChildren]
  | importFrom m names => simp [countUndoc, undocNames, stmtChildren]
  | functionDef n b =>
    simp only [countUndoc, undocNames, stmtChildren, countUndocL_eq_sum]
    by_cases h : hasDocstring b = true
    · simp [h]
    · simp only [h, Bool.false_eq_true, if_false]
      by_cases h2 : n = nm
      · subst h2; simp [List.count_cons]
      · simp [List.count_cons, h2, Ne.symm h2]
  | asyncFunctionDef n b => simp [countUndoc, undocNames, stmtChildren, countUndocL_eq_sum]
  | classDef n b => simp [countUndoc, undocNames, stmtChildren, countUndocL_eq_sum]
  | ifStmt t b o =>
    simp [countUndoc, undocNames, stmtChildren, countUndocL_eq_sum]
  | exprStmt v => simp [countUndoc, undocNames, stmtChildren]
  | assign v => simp [countUndoc, undocNames, stmtChildren]
  | annAssign v => simp [countUndoc, undocNames, stmtChildren]
  | ret v => simp [countUndoc, undocNames, stmtChildren]
  | forStmt b o => simp [countUndoc, undocNames, stmtChildren, countUndocL_eq_sum]
  | whileStmt b o => simp [countUndoc, undocNames, stmtChildren, countUndocL_eq_sum]
  | withStmt b => simp [countUndoc, undocNames, stmtChildren, countUndocL_eq_sum]
  | pass => simp [countUndoc, undocNames, stmtChildren]

theorem walkUndoc_count (nm : PyStr) (q : List Stmt) :
    (walkUndoc q).count nm = (q.map (countUndoc nm)).sum := by
  suffices H : ∀ n (q : List Stmt), (q.map sizeOf).sum = n →
      (walkUndoc q).count nm = (q.map (countUndoc nm)).sum from H _ q rfl
  intro n
  induction n using Nat.strong_induction_on with
  | _ n ih =>
    intro q hq
    cases q with
    | nil => simp [walkUndoc_nil]
    | cons s t =>
      rw [walkUndoc_cons, List.count_append]
      have hlt : ((t ++ stmtChildren s).map sizeOf).sum < n := hq ▸ walkMeasure_lt s t
      rw [ih _ hlt _ rfl]
      simp only [List.map_append, List.sum_append, List.map_cons, List.sum_cons]
      have := countUndoc_eq nm s
      omega

/-- C2 (counterexample).  The claim says every undocumented function
definition at any depth, including async function definitions, is reported by
name.  The code checks isinstance(node, ast.FunctionDef), and
ast.AsyncFunctionDef is a distinct class, so an async function with an empty
body is never reported. -/
theorem functions_without_docstrings_async_missed :
    functions_without_docstrings [Stmt.asyncFunctionDef (pstr "f") []] = [] := by
  simp [functions_without_docstrings, walkUndoc_cons, walkUndoc_nil, undocNames, stmtChildren]

/-- C2 (amended).  functions_without_docstrings walks the entire tree and
reports, once per occurrence and not deduplicated, exactly the synchronous
function-definition nodes (ast.FunctionDef; async function definitions are
never reported, though the walk does descend into their bodies) whose body is
empty or whose first body statement is not an expression statement holding a
constant literal: for every name, the number of reported occurrences equals
the structural count of such nodes in the tree. -/
theorem functions_without_docstrings_count (body : List Stmt) (nm : PyStr) :
    (functions_without_docstrings body).count nm = countUndocL nm body := by
  simp only [functions_without_docstrings]
  rw [walkUndoc_count, countUndocL_eq_sum]

example : functions_without_docstrings
    [Stmt.functionDef (pstr "g")
      [Stmt.exprStmt (Expr.constant (Const.str (pstr "doc"))),
       Stmt.functionDef (pstr "h") [Stmt.pass]],
     Stmt.asyncFunctionDef (pstr "a") [Stmt.functionDef (pstr "h") [Stmt.pass]]]
    = [pstr "h", pstr "h"] := by
  simp [functions_without_docstrings, walkUndoc_cons, walkUndoc_nil, undocNames,
    stmtChildren, hasDocstring]

/-! ## Claim C5: analyzer error handling -/

/-- C5 (counterexample).  The claim says all three analyzers catch a parse
failure and never propagate it.  functions_without_docstrings guards only
against IOError, so the SyntaxError raised by ast.parse on an unparsable
input propagates to the caller. -/
theorem functions_without_docstrings_src_syntax_error :
    functions_without_docstrings_src ScriptSource.unparsable
      = Except.error PyErr.syntaxError := rfl

/-- C5 (amended).  Only is_code_in_functions_or_main catches the parse
failure (and, through its generic handler, any other failure such as an
IOError), returning None; functions_without_docstrings and
code_contains_subprocess catch only IOError (returning an empty list and
False respectively), so an unparsable input makes both propagate an uncaught
SyntaxError. -/
theorem analyzer_parse_error_handling :
    is_code_in_functions_or_main_src ScriptSource.unparsable = Option.none ∧
    is_code_in_functions_or_main_src ScriptSource.unreadable = Option.none ∧
    functions_without_docstrings_src ScriptSource.unparsable = Except.error PyErr.syntaxError ∧
    functions_without_docstrings_src ScriptSource.unreadable = Except.ok [] ∧
    code_contains_subprocess_src ScriptSource.unparsable = Except.error PyErr.syntaxError ∧
    code_contains_subprocess_src ScriptSource.unreadable = Except.ok false :=
  ⟨rfl, rfl, rfl, rfl, rfl, rfl⟩

/-! ## Claim C4: malformed notebooks abort the run -/

/-- C4 (counterexample).  The claim says a malformed notebook is converted
into a skip-and-report outcome and the run over the remaining files
continues.  With a first document lacking the cells key and a second
well-formed document, the run returns the uncaught KeyError: the second file
is never processed and the whole run aborts. -/
theorem runNotebooks_aborts_on_malformed :
    runNotebooks [JValue.obj [], JValue.obj [(pstr "cells", JValue.arr [])]]
      = Except.error PyErr.keyError := rfl

/-- C4 (amended).  process_notebook raises on malformed input (KeyError for a
missing cells key, TypeError for a non-list cells value) and no caller
catches it: the error propagates through the walk, aborting the whole run
before any later file is processed. -/
theorem runNotebooks_error_propagates (nb : JValue) (rest : List JValue) (e : PyErr)
    (h : process_notebook nb = .error e) :
    runNotebooks (nb :: rest) = .error e := by
  simp only [runNotebooks, h]
  rfl

/-- C4 (witness). -/
theorem runNotebooks_error_propagates_witness :
    runNotebooks [JValue.obj []] = Except.error PyErr.keyError :=
  runNotebooks_error_propagates (JValue.obj []) [] PyErr.keyError rfl

example : process_notebook (JValue.obj [(pstr "cells", JValue.num 3)])
    = Except.error PyErr.typeError := rfl

/-! ## Claim C6: notebook metric invariants -/

theorem processCell_code_of_some (cell : JValue) (x : Nat × Nat)
    (h : processCell cell = .ok (some x)) : isCodeCell cell = true := by
  cases cell with
  | obj fs =>
    simp only [processCell] at h
    cases hv : jLookup fs (pstr "cell_type") with
    | none => rw [hv] at h; exact absurd h (by simp)
    | some v =>
      by_cases hc : pyEqStr v (pstr "code") = true
      · simp [isCodeCell, hv, hc]
      · exfalso
        rw [hv] at h
        simp [hc] at h
  | null => exact absurd h (by simp [processCell])
  | bool b => exact absurd h (by simp [processCell])
  | num n => exact absurd h (by simp [processCell])
  | str s => exact absurd h (by simp [processCell])
  | arr es => exact absurd h (by simp [processCell])

theorem processCells_max_le (cells : List JValue) :
    ∀ l0 f0 m0 l f m, processCells cells l0 f0 m0 = .ok (l, f, m) → m0 ≤ l0 → m ≤ l := by
  induction cells with
  | nil =>
    intro l0 f0 m0 l f m h hm
    simp only [processCells, Except.ok.injEq, Prod.mk.injEq] at h
    omega
  | cons cell rest ih =>
    intro l0 f0 m0 l f m h hm
    simp only [processCells] at h
    cases hpc : processCell cell with
    | error e => rw [hpc] at h; exact absurd h (by simp)
    | ok o =>
      rw [hpc] at h
      cases o with
      | none => exact ih _ _ _ _ _ _ h hm
      | some x =>
        obtain ⟨lc, fc⟩ := x
        exact ih _ _ _ _ _ _ h (by omega)

theorem processCells_no_code (cells : List JValue)
    (hnc : ∀ c ∈ cells, isCodeCell c = false) :
    ∀ l0 f0 m0 r, processCells cells l0 f0 m0 = .ok r → r = (l0, f0, m0) := by
  induction cells with
  | nil =>
    intro l0 f0 m0 r h
    simp only [processCells, Except.ok.injEq] at h
    exact h.symm
  | cons cell rest ih =>
    intro l0 f0 m0 r h
    simp only [processCells] at h
    cases hpc : processCell cell with
    | error e => rw [hpc] at h; exact absurd h (by simp)
    | ok o =>
      rw [hpc] at h
      cases o with
      | none =>
        exact ih (fun c hc => hnc c (List.mem_cons_of_mem _ hc)) _ _ _ _ h
      | some x =>
        have := processCell_code_of_some cell x hpc
        rw [hnc cell (List.mem_cons_self _ _)] at this
        exact absurd this (by simp)

/-- C6.  For every well-formed notebook document (a dict whose cells entry is
a list) that process_notebook accepts, the returned metrics satisfy
max_lines_in_cell less-or-equal num_lines; num_cells counts every cell of
every type; and when no cell is a code cell, max_lines_in_cell and
num_functions are both zero. -/
theorem process_notebook_metric_invariants (fields : List (PyStr × JValue))
    (cells : List JValue) (c l f m : Nat)
    (hcells : jLookup fields (pstr "cells") = some (JValue.arr cells))
    (hok : process_notebook (JValue.obj fields) = .ok (c, l, f, m)) :
    m ≤ l ∧ c = cells.length ∧
      ((∀ cell ∈ cells, isCodeCell cell = false) → m = 0 ∧ f = 0) := by
  simp only [process_notebook, hcells] at hok
  cases hpc : processCells cells 0 0 0 with
  | error e => rw [hpc] at hok; exact absurd hok (by simp)
  | ok r =>
    obtain ⟨l2, f2, m2⟩ := r
    rw [hpc] at hok
    simp only [Except.ok.injEq, Prod.mk.injEq] at hok
    obtain ⟨hc, hl, hf, hm⟩ := hok
    subst hc; subst hl; subst hf; subst hm
    refine ⟨processCells_max_le cells 0 0 0 _ _ _ hpc (le_refl 0), rfl, fun hnc => ?_⟩
    have := processCells_no_code cells hnc 0 0 0 _ hpc
    simp only [Prod.mk.injEq] at this
    exact ⟨this.2.2, this.2.1⟩

/-- C6 (witness): a notebook with one markdown cell only. -/
theorem process_notebook_metric_invariants_witness :
    (0 : Nat) ≤ 0 ∧
    (1 : Nat) = [JValue.obj [(pstr "cell_type", JValue.str (pstr "markdown")),
      (pstr "source", JValue.arr [JValue.str (pstr "# title")])]].length ∧
    ((∀ cell ∈ [JValue.obj [(pstr "cell_type", JValue.str (pstr "markdown")),
        (pstr "source", JValue.arr [JValue.str (pstr "# title")])]],
      isCodeCell cell = false) → (0 : Nat) = 0 ∧ (0 : Nat) = 0) :=
  process_notebook_metric_invariants
    [(pstr "cells", JValue.arr [JValue.obj [(pstr "cell_type", JValue.str (pstr "markdown")),
      (pstr "source", JValue.arr [JValue.str (pstr "# title")])]])]
    [JValue.obj [(pstr "cell_type", JValue.str (pstr "markdown")),
      (pstr "source", JValue.arr [JValue.str (pstr "# title")])]]
    1 0 0 0 rfl rfl

/-! ## Claims C3 and C7: truncation at the summary line -/

theorem findFirstMatchAux_ge (p : PyStr → Bool) (l : List PyStr) :
    -1 ≤ findFirstMatchAux p l := by
  induction l with
  | nil => simp [findFirstMatchAux]
  | cons x rest ih =>
    simp only [findFirstMatchAux]
    by_cases h : p x = true
    · simp [h]
    · rw [if_neg h]
      by_cases h2 : findFirstMatchAux p rest = -1
      · simp [h2]
      · simp only [h2, if_false]
        omega

theorem findFirstMatchAux_eq_neg_one_iff (p : PyStr → Bool) (l : List PyStr) :
    findFirstMatchAux p l = -1 ↔ l.any p = false := by
  induction l with
  | nil => simp [findFirstMatchAux]
  | cons x rest ih =>
    simp only [findFirstMatchAux, List.any_cons]
    by_cases h : p x = true
    · simp [h]
    · have hx : p x = false := by revert h; cases p x <;> simp
      rw [if_neg h]
      by_cases h2 : findFirstMatchAux p rest = -1
      · simp [h2, hx, ih.mp h2]
      · have hge := findFirstMatchAux_ge p rest
        have hne : rest.any p ≠ false := fun hh => h2 (ih.mpr hh)
        rw [if_neg h2]
        simp only [hx, Bool.false_or]
        constructor
        · intro hh; exfalso; omega
        · intro hh; exact absurd hh hne

theorem take_findFirstMatchAux (p : PyStr → Bool) :
    ∀ (l : List PyStr) (i : Nat), findFirstMatchAux p l = (i : Int) →
      l.take i = l.takeWhile (fun x => !p x) := by
  intro l
  induction l with
  | nil =>
    intro i h
    simp [List.takeWhile_nil]
  | cons x rest ih =>
    intro i h
    simp only [findFirstMatchAux] at h
    by_cases hp : p x = true
    · rw [if_pos hp] at h
      have : i = 0 := by omega
      subst this
      simp [List.takeWhile_cons, hp]
    · have hpx : p x = false := by revert hp; cases p x <;> simp
      rw [if_neg hp] at h
      by_cases h2 : findFirstMatchAux p rest = -1
      · rw [if_pos h2] at h; exfalso; omega
      · rw [if_neg h2] at h
        have hge := findFirstMatchAux_ge p rest
        obtain ⟨j, hj⟩ : ∃ j : Nat, findFirstMatchAux p rest = (j : Int) :=
          ⟨(findFirstMatchAux p rest).toNat, by omega⟩
        rw [hj] at h
        have hij : i = j + 1 := by omega
        subst hij
        simp [List.take_succ_cons, List.takeWhile_cons, hpx, ih j hj]

/-- The behavior of process_ruff_results in closed form: the lines strictly
before the first summary match when one exists, the empty list otherwise.
Shared by the theorems for claims C3 and C7. -/
theorem process_ruff_eq (raw : PyStr) :
    process_ruff_results raw =
      (if (raw.splitOn '\n').any matchesSummary
       then (raw.splitOn '\n').takeWhile (fun l => !matchesSummary l)
       else []) := by
  simp only [process_ruff_results, find_first_match_index]
  by_cases h : findFirstMatchAux matchesSummary (raw.splitOn '\n') = -1
  · rw [if_pos h, (findFirstMatchAux_eq_neg_one_iff _ _).mp h]
    simp
  · rw [if_neg h]
    have hge := findFirstMatchAux_ge matchesSummary (raw.splitOn '\n')
    obtain ⟨j, hj⟩ : ∃ j : Nat,
        findFirstMatchAux matchesSummary (raw.splitOn '\n') = (j : Int) :=
      ⟨(findFirstMatchAux matchesSummary (raw.splitOn '\n')).toNat, by omega⟩
    have hany : (raw.splitOn '\n').any matchesSummary = true := by
      revert h
      rw [findFirstMatchAux_eq_neg_one_iff]
      cases (raw.splitOn '\n').any matchesSummary <;> simp
    rw [hany, if_pos rfl]
    rw [hj]
    simp only [Int.toNat_natCast]
    exact take_findFirstMatchAux matchesSummary _ j hj

theorem process_ruff_results_mem (raw : PyStr) (l : PyStr)
    (hl : l ∈ process_ruff_results raw) :
    matchesSummary l = false ∧ l ∈ raw.splitOn '\n' := by
  rw [process_ruff_eq] at hl
  by_cases h : (raw.splitOn '\n').any matchesSummary = true
  · rw [if_pos h] at hl
    have h1 := List.mem_takeWhile_imp hl
    have h2 := (List.takeWhile_prefix (fun x => !matchesSummary x)).sublist.subset hl
    refine ⟨?_, h2⟩
    revert h1
    cases matchesSummary l <;> simp
  · rw [if_neg h] at hl
    simp at hl

theorem mem_splitOnP_all_false {α : Type} (p : α → Bool) :
    ∀ (xs : List α) (l : List α), l ∈ xs.splitOnP p → ∀ a ∈ l, p a = false := by
  intro xs
  induction xs with
  | nil =>
    intro l hl a ha
    simp only [List.splitOnP_nil, List.mem_singleton] at hl
    subst hl
    simp at ha
  | cons x rest ih =>
    intro l hl a ha
    rw [List.splitOnP_cons] at hl
    by_cases hp : p x = true
    · rw [if_pos hp] at hl
      rcases List.mem_cons.mp hl with rfl | hl2
      · simp at ha
      · exact ih l hl2 a ha
    · have hpx : p x = false := by revert hp; cases p x <;> simp
      rw [if_neg hp] at hl
      obtain ⟨h0, tl, heq⟩ : ∃ h0 tl, rest.splitOnP p = h0 :: tl := by
        cases he : rest.splitOnP p with
        | nil => exact absurd he (List.splitOnP_ne_nil p rest)
        | cons h0 tl => exact ⟨h0, tl, rfl⟩
      rw [heq] at hl
      simp only [List.modifyHead] at hl
      rcases List.mem_cons.mp hl with rfl | hl2
      · rcases List.mem_cons.mp ha with rfl | ha2
        · exact hpx
        · exact ih h0 (heq ▸ List.mem_cons_self _ _) a ha2
      · exact ih l (heq ▸ List.mem_cons_of_mem _ hl2) a ha

theorem mem_splitOn_not_mem (xs l : PyStr) (hl : l ∈ xs.splitOn '\n') : '\n' ∉ l := by
  intro hx
  rw [List.splitOn] at hl
  have := mem_splitOnP_all_false (fun y => y == '\n') xs l hl '\n' hx
  simp at this

/-- C3 (counterexample).  The claim says the output
file.py:3:1: X001 unused import, newline, Found 1 error, dot, newline is
truncated to the single finding line.  The compiled pattern is
Found \d+ errors with a plural s, which does not match the singular line
Found 1 error followed by a dot, so no line matches and the result is the
empty list, not the claimed singleton. -/
theorem process_ruff_results_singular_summary :
    process_ruff_results (pstr "file.py:3:1: X001 unused import\nFound 1 error.\n") = [] ∧
    process_ruff_results (pstr "file.py:3:1: X001 unused import\nFound 1 error.\n")
      ≠ [pstr "file.py:3:1: X001 unused import"] := by
  refine ⟨by decide, ?_⟩
  intro h
  rw [show process_ruff_results (pstr "file.py:3:1: X001 unused import\nFound 1 error.\n")
      = [] by decide] at h
  exact absurd h (by decide)

/-- C3 (amended).  process_ruff_results splits the raw output into lines and
returns exactly the lines strictly before the first line matching the
summary pattern Found \d+ errors, discarding the boundary line and everything
after it, and the empty sequence when no line matches; because the pattern
requires the plural errors, the output ending in Found 1 error followed by a
dot has no matching line and yields the empty sequence, while the same
output with Found 2 errors yields the single finding line. -/
theorem process_ruff_results_spec (raw : PyStr) :
    process_ruff_results raw =
      (if (raw.splitOn '\n').any matchesSummary
       then (raw.splitOn '\n').takeWhile (fun l => !matchesSummary l)
       else []) ∧
    process_ruff_results (pstr "file.py:3:1: X001 unused import\nFound 2 errors.\n")
      = [pstr "file.py:3:1: X001 unused import"] :=
  ⟨process_ruff_eq raw, by decide⟩

/-- C7 (counterexample).  The claim says re-applying the truncation to its own
output returns the same result.  On the raw output with one finding line and
a matching summary line the first application returns the finding; joining
that output and truncating again leaves no matching line, and the policy for
a missing summary returns the empty list, not the original output. -/
theorem process_ruff_results_not_idempotent :
    process_ruff_results (pstr "a\nFound 2 errors") = [pstr "a"] ∧
    process_ruff_results (List.intercalate (pstr "\n")
      (process_ruff_results (pstr "a\nFound 2 errors"))) = [] := by
  exact ⟨by decide, by decide⟩

/-- C7 (amended).  Truncation is not a fixed point on its own output: the
truncated result contains no line matching the summary pattern, and the
policy maps summary-free input to the empty sequence, so re-applying
process_ruff_results to its joined output always yields the empty sequence;
the empty sequence, not the first output, is the fixed point. -/
theorem process_ruff_results_twice_empty (raw : PyStr) :
    process_ruff_results (List.intercalate (pstr "\n") (process_ruff_results raw)) = [] := by
  cases he : process_ruff_results raw with
  | nil =>
    have h1 : List.intercalate (pstr "\n") ([] : List PyStr) = [] := by
      simp [List.intercalate]
    rw [h1]
    decide
  | cons h0 t0 =>
    have hsep : pstr "\n" = ['\n'] := rfl
    have hsplit : (List.intercalate (pstr "\n") (h0 :: t0)).splitOn '\n' = h0 :: t0 := by
      rw [hsep]
      apply List.splitOn_intercalate (h0 :: t0) '\n'
      · intro l hl
        exact mem_splitOn_not_mem raw l (process_ruff_results_mem raw l (he ▸ hl)).2
      · exact List.cons_ne_nil h0 t0
    rw [process_ruff_eq, hsplit]
    have hany : (h0 :: t0).any matchesSummary = false := by
      rw [List.any_eq_false]
      intro l hl
      simp [(process_ruff_results_mem raw l (he ▸ hl)).1]
    rw [hany]
    simp

/-! ## Claims C8 and C10: path remapping -/

theorem pyFindAux_not_mem (c : Char) (s : PyStr) (h : c ∉ s) : pyFindAux c s = -1 := by
  induction s with
  | nil => simp [pyFindAux]
  | cons a rest ih =>
    have ha : ¬(a = c) := fun e => h (by simp [e])
    simp [pyFindAux, ha, ih (fun hm => h (List.mem_cons_of_mem _ hm))]

theorem pyFindAux_append (c : Char) (pre tail : PyStr) (h : c ∉ pre) :
    pyFindAux c (pre ++ c :: tail) = (pre.length : Int) := by
  induction pre with
  | nil => simp [pyFindAux]
  | cons a rest ih =>
    have ha : ¬(a = c) := fun e => h (by simp [e])
    have ih2 := ih (fun hm => h (List.mem_cons_of_mem _ hm))
    simp only [List.cons_append, pyFindAux, List.append_eq, ih2]
    rw [if_neg ha]
    rw [if_neg (by omega : ¬((rest.length : Int) = -1))]
    simp [List.length_cons]

/-- C8.  For every line of the form derived, colon, rest (the path being
colon-free, so its end is the first colon of the line),
convert_temp_names_to_originals replaces everything before that first colon
with the original path and preserves the colon-led line, column and message
suffix verbatim. -/
theorem convert_temp_names_roundtrip (derived lineColMsg original : PyStr)
    (h : ':' ∉ derived) :
    convert_temp_names_to_originals [derived ++ ':' :: lineColMsg] original
      = [original ++ ':' :: lineColMsg] := by
  simp only [convert_temp_names_to_originals, List.map_cons, List.map_nil, pyFind]
  rw [pyFindAux_append ':' derived lineColMsg h]
  simp only [pySliceFrom]
  rw [if_neg (by omega : ¬((derived.length : Int) < 0))]
  simp only [Int.toNat_natCast]
  rw [List.drop_left]

/-- C8 (witness). -/
theorem convert_temp_names_roundtrip_witness :
    convert_temp_names_to_originals
      [pstr "/tmp/tmpab12.py" ++ ':' :: pstr "3:1: F401 unused"] (pstr "notebook.ipynb")
      = [pstr "notebook.ipynb" ++ ':' :: pstr "3:1: F401 unused"] :=
  convert_temp_names_roundtrip (pstr "/tmp/tmpab12.py") (pstr "3:1: F401 unused")
    (pstr "notebook.ipynb") (by decide)

/-- C10.  For every line without a colon the find call returns -1, which is
used as the start of the preserved slice, so the result is the original path
concatenated with the slice starting at the last character: the last
character of the line when it is nonempty, and the original path alone when
the line is empty. -/
theorem convert_temp_names_no_colon (line original : PyStr) (h : ':' ∉ line) :
    convert_temp_names_to_originals [line] original
      = [original ++ line.drop (line.length - 1)] ∧
    (line = [] → convert_temp_names_to_originals [line] original = [original]) := by
  have hmain : convert_temp_names_to_originals [line] original
      = [original ++ line.drop (line.length - 1)] := by
    simp only [convert_temp_names_to_originals, List.map_cons, List.map_nil, pyFind]
    rw [pyFindAux_not_mem ':' line h]
    simp only [pySliceFrom]
    rw [if_pos (by omega : (-1 : Int) < 0)]
    rw [(by omega : ((line.length : Int) + (-1)).toNat = line.length - 1)]
  refine ⟨hmain, fun he => ?_⟩
  subst he
  simpa using hmain

/-- C10 (witness). -/
theorem convert_temp_names_no_colon_witness :
    convert_temp_names_to_originals [pstr "no colon here"] (pstr "orig.ipynb")
      = [pstr "orig.ipynb" ++ (pstr "no colon here").drop ((pstr "no colon here").length - 1)] ∧
    (pstr "no colon here" = [] →
      convert_temp_names_to_originals [pstr "no colon here"] (pstr "orig.ipynb")
        = [pstr "orig.ipynb"]) :=
  convert_temp_names_no_colon (pstr "no colon here") (pstr "orig.ipynb") (by decide)

example : convert_temp_names_to_originals [pstr "no colon here"] (pstr "orig.ipynb")
    = [pstr "orig.ipynbe"] := by decide

/-! ## Claim C9: the start-date branch skips the ignored-directory filter -/

/-- C9.  When a start-date file list is supplied, every existing path from it
with a notebook or python extension is dispatched for analysis, with no
ignored-directory filtering applied (in particular paths under pycache,
DS_Store or checkpoint markers are analyzed); the marker filter acts only in
the tree-walk branch, where any path containing a marker as a substring is
excluded. -/
theorem walk_and_process_date_branch_unfiltered (w d : List PyStr) (ex : PyStr → Bool)
    (p : PyStr) :
    (p ∈ d → ex p = true →
      (pyStartsWith (pstr ".ipynb").reverse p.reverse ||
        pyStartsWith (pstr ".py").reverse p.reverse) = true →
      p ∈ walk_and_process w (some d) ex) ∧
    (isFlaggedPath p = true → p ∉ walk_and_process w Option.none ex) := by
  constructor
  · intro hmem hex hext
    simp only [walk_and_process]
    rw [List.mem_filter]
    refine ⟨hmem, ?_⟩
    rw [hex, hext]
    rfl
  · intro hflag hmem
    simp only [walk_and_process] at hmem
    rw [List.mem_filter] at hmem
    have h2 := (List.mem_filter.mp hmem.1).2
    rw [hflag] at h2
    simp at h2

/-- C9 (witness): a notebook-cache path under a pycache marker is analyzed in
the date branch and excluded in the walk branch. -/
theorem walk_and_process_date_branch_unfiltered_witness :
    pstr "repo/__pycache__/m.py" ∈
      walk_and_process [] (some [pstr "repo/__pycache__/m.py"]) (fun _ => true) ∧
    pstr "repo/__pycache__/m.py" ∉
      walk_and_process [pstr "repo/__pycache__/m.py"] Option.none (fun _ => true) := by
  constructor
  · exact (walk_and_process_date_branch_unfiltered [] [pstr "repo/__pycache__/m.py"]
      (fun _ => true) (pstr "repo/__pycache__/m.py")).1 (by decide) rfl (by decide)
  · exact (walk_and_process_date_branch_unfiltered [pstr "repo/__pycache__/m.py"] []
      (fun _ => true) (pstr "repo/__pycache__/m.py")).2 (by decide)
